import Mathlib

/-!
Verification of the rjvm class-file decoder against its specification.

The definitions below are a shallow embedding of the repository's source:

* `BufferedReader`, `advance`, `take`, `peekBytes`, `takeBytes`,
  `hasRemainingData` embed `src/bytecode/reader/reader.rs` (the
  `src/decoder/buffer.rs` draft is byte-for-byte the same reader logic with a
  renamed error type, so one embedding covers both).
* `ConstantPool`, `insert`, `get`, `textOfFuel` embed `src/bytecode/pool.rs`.
  The Rust `text_of` is unboundedly recursive; `textOfFuel` makes the call
  depth explicit, with `TextOutcome.diverged` marking that the given depth was
  exhausted, so `∀ fuel, … = .diverged` states that the Rust recursion never
  bottoms out.
* `parseFieldType`, `Descriptor.parseFromField`, `Descriptor.parseFromMethod`,
  `displayFieldType` embed `src/bytecode/descriptors.rs` and the `Display`
  impls of `src/bytecode/mod.rs`.
* `readConstantPoolEntry`, `readClassfile` and friends embed
  `src/bytecode/reader/constants.rs` and `src/bytecode/reader/containers.rs`,
  with Rust panics (`unwrap`/`expect`/out-of-bounds slice) surfaced as the
  explicit `DecodeOutcome.panicked` outcome.
* The flags module (`src/bytecode/flags.rs`) is declared by the crate but its
  file is absent from the source tree; its `from_bits` validators are
  modelled from the specification, as marked at their definitions.

Bytes are modelled as `Nat` (values < 256 on all concrete inputs); machine
integers decoded from bytes are `Nat`/`Int` with explicit big-endian and
two's-complement arithmetic; IEEE-754 floats are carried as their raw bit
patterns, since no specified behaviour inspects a float's numeric value.
-/

set_option maxRecDepth 20000

namespace RJVM

/-- Error kind of the bytecode module (`src/bytecode/mod.rs`, `BytecodeError`). -/
inductive BytecodeError where
  | constantPoolEntryAlreadyExists
  | constantPoolEntryNotFound
  | unsupportedAttributeName
  | invalidClassFile
  | unexpectedEndOfData
  | invalidData
  | unsupportedInstruction
  | invalidDescriptor
  | unsupportedVerificationType
  deriving DecidableEq, Repr

/-- Reader state of `src/bytecode/reader/reader.rs` (`BufferedReader`): an
immutable byte slice, a cursor, and the recorded length. -/
structure BufferedReader where
  data : List Nat
  position : Nat
  size : Nat
  deriving DecidableEq, Repr

/-- `BufferedReader::new`: cursor 0, size = length of the data. -/
def BufferedReader.new (data : List Nat) : BufferedReader :=
  ⟨data, 0, data.length⟩

/-- `BufferedReader::advance`: either fail with `UnexpectedEndOfData` leaving
the state untouched, or return the `n`-byte slice at the cursor and advance
the cursor by exactly `n`. -/
def BufferedReader.advance (r : BufferedReader) (n : Nat) :
    Except BytecodeError (List Nat) × BufferedReader :=
  if r.position + n > r.size then
    (.error .unexpectedEndOfData, r)
  else
    (.ok ((r.data.drop r.position).take n), { r with position := r.position + n })

/-- The primitive types with a `FromBytes` impl in the source (the reader
also has a `Vec<u8>` impl, which no decoder invokes through `take`). -/
inductive PrimTy where
  | u8 | u16 | u32 | i8 | i16 | i32 | i64 | f32 | f64
  deriving DecidableEq, Repr

/-- `size_of::<T>()` for each `FromBytes` type. -/
def PrimTy.width : PrimTy → Nat
  | .u8 => 1
  | .u16 => 2
  | .u32 => 4
  | .i8 => 1
  | .i16 => 2
  | .i32 => 4
  | .i64 => 8
  | .f32 => 4
  | .f64 => 8

/-- Big-endian value of a byte list (`from_be_bytes`). -/
def decodeBE (bytes : List Nat) : Nat :=
  bytes.foldl (fun acc b => acc * 256 + b) 0

/-- Two's-complement reading of a `bits`-wide big-endian value. -/
def toSigned (bits : Nat) (v : Nat) : Int :=
  if v < 2 ^ (bits - 1) then (v : Int) else (v : Int) - 2 ^ bits

/-- A decoded primitive value: unsigned as `Nat`, signed as `Int`, floating
types as their raw IEEE-754 bit pattern. -/
inductive PrimValue where
  | uVal (n : Nat)
  | iVal (z : Int)
  | fBits (n : Nat)
  deriving DecidableEq, Repr

/-- The `FromBytes` impls of `src/bytecode/reader/reader.rs`: each checks the
slice length against `size_of::<T>()` (returning `InvalidData` on mismatch)
and then decodes big-endian. -/
def fromBytes (t : PrimTy) (bytes : List Nat) : Except BytecodeError PrimValue :=
  if bytes.length ≠ t.width then .error .invalidData
  else
    match t with
    | .u8 => .ok (.uVal (decodeBE bytes))
    | .u16 => .ok (.uVal (decodeBE bytes))
    | .u32 => .ok (.uVal (decodeBE bytes))
    | .i8 => .ok (.iVal (toSigned 8 (decodeBE bytes)))
    | .i16 => .ok (.iVal (toSigned 16 (decodeBE bytes)))
    | .i32 => .ok (.iVal (toSigned 32 (decodeBE bytes)))
    | .i64 => .ok (.iVal (toSigned 64 (decodeBE bytes)))
    | .f32 => .ok (.fBits (decodeBE bytes))
    | .f64 => .ok (.fBits (decodeBE bytes))

/-- `BufferedReader::take::<T>()`: advance by `size_of::<T>()` and decode. -/
def take (t : PrimTy) (r : BufferedReader) :
    Except BytecodeError PrimValue × BufferedReader :=
  match r.advance t.width with
  | (.ok slice, r2) => (fromBytes t slice, r2)
  | (.error e, r2) => (.error e, r2)

/-- `BufferedReader::take_bytes(n)`. -/
def takeBytes (r : BufferedReader) (n : Nat) :
    Except BytecodeError (List Nat) × BufferedReader :=
  r.advance n

/-- Outcome of running a decoder step, with Rust escapes made explicit:
`panicked` models a Rust panic (`unwrap`, `expect`, out-of-bounds slice
index) and `diverged` models a recursion that never terminates. -/
inductive DecodeOutcome (α : Type) where
  | ok (a : α)
  | err (e : BytecodeError)
  | panicked
  | diverged
  deriving DecidableEq, Repr

/-- `BufferedReader::peek_bytes::<T>()`: the source indexes
`self.data[self.position .. self.position + length]` with no bounds guard, so
when fewer than `size_of::<T>()` bytes remain the slice index is out of range
and Rust panics. -/
def peekBytes (t : PrimTy) (r : BufferedReader) : DecodeOutcome PrimValue :=
  if r.position + t.width > r.data.length then .panicked
  else
    match fromBytes t ((r.data.drop r.position).take t.width) with
    | .ok v => .ok v
    | .error e => .err e

/-- `BufferedReader::has_remaining_data`: the source returns
`self.position == self.data.len()` (both in `reader.rs` and `buffer.rs`). -/
def hasRemainingData (r : BufferedReader) : Bool :=
  r.position == r.data.length

/-- The constant-pool entry kinds of `src/bytecode/pool.rs`
(`ConstantPoolEntry`). Pool indices are `Nat`; `Integer` carries the decoded
`i32`, `Float` its raw bits, `Long`/`Double` their two `u32` halves, `Utf8`
its recorded length and raw bytes. -/
inductive ConstantPoolEntry where
  | Class (nameIndex : Nat)
  | FieldRef (classIndex nameAndTypeIndex : Nat)
  | MethodRef (classIndex nameAndTypeIndex : Nat)
  | InterfaceMethodRef (classIndex nameAndTypeIndex : Nat)
  | String (stringIndex : Nat)
  | Integer (bytes : Int)
  | Float (bytes : Nat)
  | Long (highBytes lowBytes : Nat)
  | Double (highBytes lowBytes : Nat)
  | NameAndType (nameIndex descriptorIndex : Nat)
  | Utf8 (length : Nat) (bytes : List Nat)
  | MethodHandle (referenceKind referenceIndex : Nat)
  | MethodType (descriptorIndex : Nat)
  | Dynamic (bootstrapMethodAttrIndex nameAndTypeIndex : Nat)
  | InvokeDynamic (bootstrapMethodAttrIndex nameAndTypeIndex : Nat)
  | Module (nameIndex : Nat)
  | Package (nameIndex : Nat)
  deriving DecidableEq, Repr

/-- The constant pool (`src/bytecode/pool.rs`, `ConstantPool`): a map from
index to entry, modelled extensionally. The source's `HashMap` also offers
`remove`/`size`/`is_empty`, which no specified claim touches. -/
structure ConstantPool where
  entries : Nat → Option ConstantPoolEntry

/-- `ConstantPool::new()`. -/
def ConstantPool.new : ConstantPool := ⟨fun _ => none⟩

/-- `ConstantPool::get`. -/
def ConstantPool.get (p : ConstantPool) (index : Nat) : Option ConstantPoolEntry :=
  p.entries index

/-- `ConstantPool::insert`: refuse with `ConstantPoolEntryAlreadyExists` when
the index is occupied (leaving the map as it was), otherwise store the entry
at the index. The pair carries the result alongside the (possibly updated)
pool, mirroring `&mut self`. -/
def ConstantPool.insert (p : ConstantPool) (index : Nat) (value : ConstantPoolEntry) :
    Except BytecodeError Unit × ConstantPool :=
  if (p.entries index).isSome then
    (.error .constantPoolEntryAlreadyExists, p)
  else
    (.ok (), ⟨fun j => if j = index then some value else p.entries j⟩)

/-- Continuation byte test for UTF-8 decoding. -/
def isCont (b : Nat) : Bool :=
  if 0x80 ≤ b ∧ b ≤ 0xBF then true else false

/-- Allowed second byte after a three-byte leader. -/
def utf8Cont3Ok (b b1 : Nat) : Bool :=
  if b = 0xE0 then (if 0xA0 ≤ b1 ∧ b1 ≤ 0xBF then true else false)
  else if b = 0xED then (if 0x80 ≤ b1 ∧ b1 ≤ 0x9F then true else false)
  else isCont b1

/-- Allowed second byte after a four-byte leader. -/
def utf8Cont4Ok (b b1 : Nat) : Bool :=
  if b = 0xF0 then (if 0x90 ≤ b1 ∧ b1 ≤ 0xBF then true else false)
  else if b = 0xF4 then (if 0x80 ≤ b1 ∧ b1 ≤ 0x8F then true else false)
  else isCont b1

/-- Standard UTF-8 validation and decoding, modelling Rust's
`String::from_utf8` (which the source applies to `Utf8` pool bytes): `none`
corresponds to `Err(FromUtf8Error)`. -/
def utf8Decode : List Nat → Option (List Char)
  | [] => some []
  | b :: rest =>
    if b < 0x80 then
      (utf8Decode rest).map (fun cs => Char.ofNat b :: cs)
    else if 0xC2 ≤ b ∧ b ≤ 0xDF then
      match rest with
      | b1 :: rest1 =>
        if isCont b1 then
          (utf8Decode rest1).map
            (fun cs => Char.ofNat ((b - 0xC0) * 0x40 + (b1 - 0x80)) :: cs)
        else none
      | [] => none
    else if 0xE0 ≤ b ∧ b ≤ 0xEF then
      match rest with
      | b1 :: b2 :: rest2 =>
        if utf8Cont3Ok b b1 && isCont b2 then
          (utf8Decode rest2).map
            (fun cs =>
              Char.ofNat ((b - 0xE0) * 0x1000 + (b1 - 0x80) * 0x40 + (b2 - 0x80)) :: cs)
        else none
      | _ => none
    else if 0xF0 ≤ b ∧ b ≤ 0xF4 then
      match rest with
      | b1 :: b2 :: b3 :: rest3 =>
        if utf8Cont4Ok b b1 && isCont b2 && isCont b3 then
          (utf8Decode rest3).map
            (fun cs =>
              Char.ofNat ((b - 0xF0) * 0x40000 + (b1 - 0x80) * 0x1000 +
                (b2 - 0x80) * 0x40 + (b3 - 0x80)) :: cs)
        else none
      | _ => none
    else none

/-- `String::from_utf8` on a byte vector. -/
def stringFromUtf8 (bytes : List Nat) : Option String :=
  (utf8Decode bytes).map (fun cs => String.mk cs)

/-- Decimal text of an `f32` from its bit pattern. No claim inspects this
text (it only ever needs to be *some* string), so IEEE-754 decimal
formatting is abstracted to rendering the raw bits. -/
def f32BitsText (bits : Nat) : String := toString bits

/-- Result of `ConstantPool::text_of`: `ok`/`noneResult` are Rust's
`Some`/`None`; `panicked` is the `String::from_utf8(..).unwrap()` panic on
invalid UTF-8; `diverged` records that the allotted recursion depth was
exhausted. -/
inductive TextOutcome where
  | ok (s : String)
  | noneResult
  | panicked
  | diverged
  deriving DecidableEq, Repr

/-- Combine two recursive `text_of` results the way `format!("{}{}{}", a?,
sep, b?)` does: the first escape (None, panic, divergence) wins, evaluated
left to right. -/
def combineText (sep : String) (a b : TextOutcome) : TextOutcome :=
  match a with
  | .ok s1 =>
    match b with
    | .ok s2 => .ok (s1 ++ sep ++ s2)
    | x => x
  | x => x

/-- `ConstantPool::text_of` with its recursion depth made explicit. The
source recurses with no cycle detection and no depth bound; here each
recursive call spends one unit of fuel, so a result of `.diverged` at every
fuel is exactly the claim that the Rust recursion never terminates. The
branch structure is that of the source `match`: `Utf8`, `String`, `Integer`,
`Float`, `MethodRef`, `InterfaceMethodRef`, `NameAndType`, `Class` are
handled and every other kind falls to the wildcard returning `None`. -/
def textOfFuel : Nat → ConstantPool → Nat → TextOutcome
  | 0, _, _ => .diverged
  | Nat.succ fuel, cp, index =>
    match cp.get index with
    | none => .noneResult
    | some entry =>
      match entry with
      | .Utf8 _ bytes =>
        match stringFromUtf8 bytes with
        | some s => .ok s
        | none => .panicked
      | .String stringIndex => textOfFuel fuel cp stringIndex
      | .Integer bytes => .ok (toString bytes)
      | .Float bytes => .ok (f32BitsText bytes)
      | .MethodRef classIndex nameAndTypeIndex =>
        combineText "." (textOfFuel fuel cp classIndex)
          (textOfFuel fuel cp nameAndTypeIndex)
      | .InterfaceMethodRef classIndex nameAndTypeIndex =>
        combineText "." (textOfFuel fuel cp classIndex)
          (textOfFuel fuel cp nameAndTypeIndex)
      | .NameAndType nameIndex descriptorIndex =>
        combineText ": " (textOfFuel fuel cp nameIndex)
          (textOfFuel fuel cp descriptorIndex)
      | .Class nameIndex => textOfFuel fuel cp nameIndex
      | _ => .noneResult

/-- `BaseType` of `src/bytecode/mod.rs`. -/
inductive BaseType where
  | Byte | Char | Double | Float | Int | Long | Short | Boolean | Void
  deriving DecidableEq, Repr

/-- `FieldType` of `src/bytecode/mod.rs`. -/
inductive FieldType where
  | Base (t : BaseType)
  | Object (name : String)
  | Array (t : FieldType)
  deriving DecidableEq, Repr

/-- `DescriptorKind` of `src/bytecode/mod.rs` (`TypeKind` embeds the source's
`Type` variant, which is not a legal Lean constructor name). -/
inductive DescriptorKind where
  | Parameter | Return | TypeKind
  deriving DecidableEq, Repr

/-- `Descriptor` of `src/bytecode/mod.rs`. -/
structure Descriptor where
  kind : DescriptorKind
  ty : FieldType
  deriving DecidableEq, Repr

/-- The class-name loop of `parse_field_type`'s `'L'` arm: pop characters
until a `';'` (consumed, not kept) or the end of input, returning the name
characters and the remainder. -/
def classNameChars : List Char → List Char × List Char
  | [] => ([], [])
  | c :: cs =>
    if c = ';' then ([], cs)
    else
      let r := classNameChars cs
      (c :: r.1, r.2)

/-- `parse_field_type` of `src/bytecode/descriptors.rs`. The source pops from
a reversed `Vec<char>`, which is popping the head of the character list in
order. Its wildcard arm maps any other character — including `'V'` — and the
empty input to `Some(FieldType::Base(BaseType::Void))`, so the function never
returns `None`. -/
def parseFieldType : List Char → Option FieldType × List Char
  | [] => (some (.Base .Void), [])
  | 'B' :: cs => (some (.Base .Byte), cs)
  | 'C' :: cs => (some (.Base .Char), cs)
  | 'D' :: cs => (some (.Base .Double), cs)
  | 'F' :: cs => (some (.Base .Float), cs)
  | 'I' :: cs => (some (.Base .Int), cs)
  | 'J' :: cs => (some (.Base .Long), cs)
  | 'S' :: cs => (some (.Base .Short), cs)
  | 'Z' :: cs => (some (.Base .Boolean), cs)
  | 'L' :: cs =>
    let r := classNameChars cs
    (some (.Object (String.mk r.1)), r.2)
  | '[' :: cs =>
    let r := parseFieldType cs
    (r.1.map .Array, r.2)
  | _ :: cs => (some (.Base .Void), cs)

/-- `Descriptor::parse_from_field`: parse one field type from the front of
the string (leftover characters are ignored by the source) and wrap it with
kind `Type`; `None` from the parser would be `InvalidDescriptor`. -/
def Descriptor.parseFromField (descriptor : String) : Except BytecodeError Descriptor :=
  match (parseFieldType descriptor.toList).1 with
  | some ty => .ok ⟨.TypeKind, ty⟩
  | none => .error .invalidDescriptor

/-- The `take_while(|c| *c != ')')` of `parse_from_method`: the parameter
characters before the first `')'`, and the remainder after that `')'` (the
`')'` itself is consumed by the iterator). -/
def splitParams : List Char → List Char × List Char
  | [] => ([], [])
  | c :: cs =>
    if c = ')' then ([], cs)
    else
      let r := splitParams cs
      (c :: r.1, r.2)

/-- The parameter loop of `parse_from_method`: repeatedly parse field types
until the character list empties. The Rust `while` terminates because
`parse_field_type` consumes at least one character from a non-empty list;
the fuel — initialised to the character count by the caller — makes the same
bound explicit and is never exhausted. -/
def paramsLoopFuel : Nat → List Char → List Descriptor
  | 0, _ => []
  | _, [] => []
  | Nat.succ n, c :: cs =>
    let r := parseFieldType (c :: cs)
    match r.1 with
    | some ty => ⟨.Parameter, ty⟩ :: paramsLoopFuel n r.2
    | none => paramsLoopFuel n r.2

/-- The return-type step of `parse_from_method`: parse one field type from
the remaining characters and wrap it as a `Return` descriptor (always
produced, since `parse_field_type` never returns `None`). -/
def returnDescriptor (cs : List Char) : List Descriptor :=
  match (parseFieldType cs).1 with
  | some ty => [⟨.Return, ty⟩]
  | none => []

/-- `Descriptor::parse_from_method`. `chars.next()` consumes the first
character whether or not it is `'('`; with a leading `'('` the parameters
run to the first `')'` (consumed), otherwise the parameter list is empty and
the return type is parsed from the second character on. -/
def Descriptor.parseFromMethod (descriptor : String) : List Descriptor :=
  match descriptor.toList with
  | [] => returnDescriptor []
  | c :: rest =>
    if c = '(' then
      let pr := splitParams rest
      paramsLoopFuel pr.1.length pr.1 ++ returnDescriptor pr.2
    else
      returnDescriptor rest

/-- `Display for BaseType` (`src/bytecode/mod.rs`): spelled-out names. -/
def displayBaseType : BaseType → String
  | .Byte => "byte"
  | .Char => "char"
  | .Double => "double"
  | .Float => "float"
  | .Int => "int"
  | .Long => "long"
  | .Short => "short"
  | .Boolean => "boolean"
  | .Void => "void"

/-- `Display for FieldType` (`src/bytecode/mod.rs`): base types spell out,
object types print the bare class name (no `L`/`;`), arrays print as
`[component]` with a closing bracket. -/
def displayFieldType : FieldType → String
  | .Base t => displayBaseType t
  | .Object t => t
  | .Array t => "[" ++ displayFieldType t ++ "]"

/-- The canonical wire-format descriptor characters of a field-type tree, per
the specification's grammar (§4.2): one letter per base type, `L name ;` for
object types, a leading `[` per array dimension. This is the spec-side
rendering used to state the amended round-trip, not code from the source. -/
def canonicalFieldTypeChars : FieldType → List Char
  | .Base .Byte => ['B']
  | .Base .Char => ['C']
  | .Base .Double => ['D']
  | .Base .Float => ['F']
  | .Base .Int => ['I']
  | .Base .Long => ['J']
  | .Base .Short => ['S']
  | .Base .Boolean => ['Z']
  | .Base .Void => ['V']
  | .Object n => 'L' :: (n.toList ++ [';'])
  | .Array t => '[' :: canonicalFieldTypeChars t

/-- Object names free of `';'`, the condition under which the canonical
string of a tree parses back to the tree. -/
def semicolonFree : FieldType → Bool
  | .Base _ => true
  | .Object n => n.toList.all (fun c => c ≠ ';')
  | .Array t => semicolonFree t

/-- A decoding step threading the reader state, as the Rust functions do with
`&mut BufferedReader`. -/
def DecodeM (α : Type) : Type :=
  BufferedReader → DecodeOutcome α × BufferedReader

instance : Monad DecodeM where
  pure a := fun r => (.ok a, r)
  bind m f := fun r =>
    match m r with
    | (.ok a, r2) => f a r2
    | (.err e, r2) => (.err e, r2)
    | (.panicked, r2) => (.panicked, r2)
    | (.diverged, r2) => (.diverged, r2)

/-- `return Err(e)` from a decoding function. -/
def throwD {α : Type} (e : BytecodeError) : DecodeM α :=
  fun r => (.err e, r)

/-- `reader.take::<u8>()?`. -/
def takeU8 : DecodeM Nat := fun r =>
  match take .u8 r with
  | (.ok (.uVal n), r2) => (.ok n, r2)
  | (.ok _, r2) => (.err .invalidData, r2)
  | (.error e, r2) => (.err e, r2)

/-- `reader.take::<u16>()?`. -/
def takeU16 : DecodeM Nat := fun r =>
  match take .u16 r with
  | (.ok (.uVal n), r2) => (.ok n, r2)
  | (.ok _, r2) => (.err .invalidData, r2)
  | (.error e, r2) => (.err e, r2)

/-- `reader.take::<u32>()?`. -/
def takeU32 : DecodeM Nat := fun r =>
  match take .u32 r with
  | (.ok (.uVal n), r2) => (.ok n, r2)
  | (.ok _, r2) => (.err .invalidData, r2)
  | (.error e, r2) => (.err e, r2)

/-- `reader.take::<i32>()?`. -/
def takeI32 : DecodeM Int := fun r =>
  match take .i32 r with
  | (.ok (.iVal z), r2) => (.ok z, r2)
  | (.ok _, r2) => (.err .invalidData, r2)
  | (.error e, r2) => (.err e, r2)

/-- `reader.take::<f32>().expect("msg")` — the `Float` arm of
`read_constant_pool_entry` panics instead of propagating the error. -/
def takeF32orPanic : DecodeM Nat := fun r =>
  match take .f32 r with
  | (.ok (.fBits n), r2) => (.ok n, r2)
  | (.ok _, r2) => (.err .invalidData, r2)
  | (.error _, r2) => (.panicked, r2)

/-- `reader.take_bytes(n)?`. -/
def takeBytesM (n : Nat) : DecodeM (List Nat) := fun r =>
  match takeBytes r n with
  | (.ok bs, r2) => (.ok bs, r2)
  | (.error e, r2) => (.err e, r2)

/-- `ConstantTag` of `src/bytecode/pool.rs`. -/
inductive ConstantTag where
  | Class | FieldRef | MethodRef | InterfaceMethodRef | String | Integer
  | Float | Long | Double | NameAndType | Utf8 | MethodHandle | MethodType
  | Dynamic | InvokeDynamic | Module | Package
  deriving DecidableEq, Repr

/-- `ConstantTag::from_tag`. -/
def ConstantTag.fromTag : Nat → Option ConstantTag
  | 1 => some .Utf8
  | 3 => some .Integer
  | 4 => some .Float
  | 5 => some .Long
  | 6 => some .Double
  | 7 => some .Class
  | 8 => some .String
  | 9 => some .FieldRef
  | 10 => some .MethodRef
  | 11 => some .InterfaceMethodRef
  | 12 => some .NameAndType
  | 15 => some .MethodHandle
  | 16 => some .MethodType
  | 17 => some .Dynamic
  | 18 => some .InvokeDynamic
  | 19 => some .Module
  | 20 => some .Package
  | _ => none

/-- `read_constant_pool_entry` of `src/bytecode/reader/constants.rs`: one
tag byte, then the tag-specific payload; an unknown tag is `InvalidData`. -/
def readConstantPoolEntry : DecodeM ConstantPoolEntry := do
  let tag ← takeU8
  match ConstantTag.fromTag tag with
  | none => throwD .invalidData
  | some .Class => do
    let nameIndex ← takeU16
    pure (.Class nameIndex)
  | some .FieldRef => do
    let classIndex ← takeU16
    let nameAndTypeIndex ← takeU16
    pure (.FieldRef classIndex nameAndTypeIndex)
  | some .MethodRef => do
    let classIndex ← takeU16
    let nameAndTypeIndex ← takeU16
    pure (.MethodRef classIndex nameAndTypeIndex)
  | some .InterfaceMethodRef => do
    let classIndex ← takeU16
    let nameAndTypeIndex ← takeU16
    pure (.InterfaceMethodRef classIndex nameAndTypeIndex)
  | some .String => do
    let stringIndex ← takeU16
    pure (.String stringIndex)
  | some .Integer => do
    let bytes ← takeI32
    pure (.Integer bytes)
  | some .Float => do
    let bytes ← takeF32orPanic
    pure (.Float bytes)
  | some .Long => do
    let highBytes ← takeU32
    let lowBytes ← takeU32
    pure (.Long highBytes lowBytes)
  | some .Double => do
    let highBytes ← takeU32
    let lowBytes ← takeU32
    pure (.Double highBytes lowBytes)
  | some .NameAndType => do
    let nameIndex ← takeU16
    let descriptorIndex ← takeU16
    pure (.NameAndType nameIndex descriptorIndex)
  | some .Utf8 => do
    let length ← takeU16
    let bytes ← takeBytesM length
    pure (.Utf8 length bytes)
  | some .MethodHandle => do
    let referenceKind ← takeU8
    let referenceIndex ← takeU16
    pure (.MethodHandle referenceKind referenceIndex)
  | some .MethodType => do
    let descriptorIndex ← takeU16
    pure (.MethodType descriptorIndex)
  | some .Dynamic => do
    let bootstrapMethodAttrIndex ← takeU16
    let nameAndTypeIndex ← takeU16
    pure (.Dynamic bootstrapMethodAttrIndex nameAndTypeIndex)
  | some .InvokeDynamic => do
    let bootstrapMethodAttrIndex ← takeU16
    let nameAndTypeIndex ← takeU16
    pure (.InvokeDynamic bootstrapMethodAttrIndex nameAndTypeIndex)
  | some .Module => do
    let nameIndex ← takeU16
    pure (.Module nameIndex)
  | some .Package => do
    let nameIndex ← takeU16
    pure (.Package nameIndex)

/-- Modelled from the spec: the class-level access-flag mask (§4.6 step 4
"validate against the class-level mask"). The crate declares `pub mod flags`
but `src/bytecode/flags.rs` is absent from the source tree, so the bitflags
masks are taken from the referenced file-format specification. -/
def classAccessFlagsMask : Nat := 0xF631

/-- Modelled from the spec: field-level access-flag mask. -/
def fieldAccessFlagsMask : Nat := 0x50DF

/-- Modelled from the spec: method-level access-flag mask. -/
def methodAccessFlagsMask : Nat := 0x1DFF

/-- Modelled from the spec: `bitflags`-style `from_bits` — `Some(bits)` when
no bit outside the mask is set, `None` otherwise. The validated flag value is
kept as the raw `u16`. -/
def accessFlagsFromBits (mask bits : Nat) : Option Nat :=
  if bits &&& (0xFFFF ^^^ mask) = 0 then some bits else none

/-- `Interface` of `src/bytecode/mod.rs`. -/
structure Interface where
  nameIndex : Nat
  deriving DecidableEq, Repr

/-- Modelled from the spec: the decoded form of one attribute. The source's
attribute values are type-erased `Box<dyn AnyAttribute>` objects built by the
registry in `src/bytecode/attributes.rs`; the claims never inspect one, so
the common §4.4 wire layout (name index, length, payload) plus the resolved
name stands in for the per-attribute records. -/
structure AttributeRecord where
  name : String
  nameIndex : Nat
  length : Nat
  payload : List Nat
  deriving DecidableEq, Repr

/-- `Field` of `src/bytecode/mod.rs` (access flags as the validated raw
`u16`, the flags module being absent from the source tree). -/
structure Field where
  name : String
  descriptor : Descriptor
  accessFlags : Nat
  attributes : List AttributeRecord
  deriving DecidableEq, Repr

/-- `Method` of `src/bytecode/mod.rs`. -/
structure Method where
  accessFlags : Nat
  name : String
  descriptor : List Descriptor
  attributes : List AttributeRecord
  deriving DecidableEq, Repr

/-- `ClassFileVersion` of `src/bytecode/mod.rs`. -/
structure ClassFileVersion where
  minor : Nat
  major : Nat
  deriving DecidableEq, Repr

/-- `ClassFile` of `src/bytecode/mod.rs`. -/
structure ClassFile where
  magicNumber : Nat
  version : ClassFileVersion
  constantPoolCount : Nat
  constantPool : ConstantPool
  accessFlags : Nat
  thisClass : Nat
  superClass : Nat
  interfacesCount : Nat
  interfaces : List Interface
  fieldsCount : Nat
  fields : List Field
  methodsCount : Nat
  methods : List Method
  attributesCount : Nat
  attributes : List AttributeRecord

/-- Lift a `cp.text_of(idx)` call into a decoding step: `let Some(x) = …
else return Err(onMissing)`, with panic and divergence propagating. -/
def textOfD (onMissing : BytecodeError) (fuel : Nat) (cp : ConstantPool)
    (index : Nat) : DecodeM String := fun r =>
  match textOfFuel fuel cp index with
  | .ok s => (.ok s, r)
  | .noneResult => (.err onMissing, r)
  | .panicked => (.panicked, r)
  | .diverged => (.diverged, r)

/-- Run a decoding step `count` times, collecting the results in order — the
`for _ in 0..count { … }` loops of `read_classfile`. -/
def repeatM {α : Type} : Nat → DecodeM α → DecodeM (List α)
  | 0, _ => pure []
  | Nat.succ n, m => do
    let a ← m
    let rest ← repeatM n m
    pure (a :: rest)

/-- The standard attribute names of the registry (`Container`), per the
specification's §4.4 table. -/
def standardAttributeNames : List String :=
  ["ConstantValue", "Code", "StackMapTable", "Exceptions", "InnerClasses",
   "EnclosingMethod", "Synthetic", "Deprecated", "Signature", "SourceFile",
   "SourceDebugExtension", "LineNumberTable", "LocalVariableTable",
   "LocalVariableTypeTable", "RuntimeVisibleAnnotations",
   "RuntimeInvisibleAnnotations", "RuntimeVisibleParameterAnnotations",
   "RuntimeInvisibleParameterAnnotations", "RuntimeVisibleTypeAnnotations",
   "RuntimeInvisibleTypeAnnotations", "AnnotationDefault", "BootstrapMethods",
   "MethodParameters", "Module", "ModulePackages", "ModuleMainClass",
   "NestHost", "NestMembers", "Record", "PermittedSubtypes"]

/-- `read_attribute` of `src/bytecode/reader/attributes.rs`: peek the name
index, resolve the name through the pool (a missing name is `InvalidData`),
reject names outside the registry with `UnsupportedAttributeName`.
Modelled from the spec past that entry: the matched factory's payload
decoding follows the §4.4 common wire layout (`name_index:u16, length:u32,
payload[length]`), the per-attribute factories of the source being
unreachable from every claim (each claim's inputs carry zero attributes).
The source's own drafts disagree on this function's arity (its call sites
pass two arguments, its definition takes three), so the registry argument is
fixed to the standard set. -/
def readAttribute (fuel : Nat) (cp : ConstantPool) : DecodeM AttributeRecord :=
  fun r =>
    match peekBytes .u16 r with
    | .ok (.uVal nameIdx) =>
      (match textOfFuel fuel cp nameIdx with
       | .ok name =>
         if standardAttributeNames.contains name then
           (do
             let nameIndex ← takeU16
             let length ← takeU32
             let payload ← takeBytesM length
             pure (AttributeRecord.mk name nameIndex length payload)) r
         else (.err .unsupportedAttributeName, r)
       | .noneResult => (.err .invalidData, r)
       | .panicked => (.panicked, r)
       | .diverged => (.diverged, r))
    | .ok _ => (.err .invalidData, r)
    | .err e => (.err e, r)
    | .panicked => (.panicked, r)
    | .diverged => (.diverged, r)

/-- `read_interface` of `src/bytecode/reader/containers.rs`. -/
def readInterface : DecodeM Interface := do
  let nameIndex ← takeU16
  pure ⟨nameIndex⟩

/-- `read_field` of `src/bytecode/reader/containers.rs`: flags (validated),
name and descriptor resolved through the pool (`InvalidClassFile` when
missing), the descriptor parsed with `unwrap_or` falling back to `Void`,
then the attribute list. -/
def readField (fuel : Nat) (cp : ConstantPool) : DecodeM Field := do
  let accessFlags ← takeU16
  match accessFlagsFromBits fieldAccessFlagsMask accessFlags with
  | none => throwD .invalidClassFile
  | some flags => do
    let nameIndex ← takeU16
    let name ← textOfD .invalidClassFile fuel cp nameIndex
    let descriptorIndex ← takeU16
    let descriptorText ← textOfD .invalidClassFile fuel cp descriptorIndex
    let descriptor :=
      match Descriptor.parseFromField descriptorText with
      | .ok d => d
      | .error _ => ⟨.TypeKind, .Base .Void⟩
    let attributesCount ← takeU16
    let attributes ← repeatM attributesCount (readAttribute fuel cp)
    pure ⟨name, descriptor, flags, attributes⟩

/-- `read_method` of `src/bytecode/reader/containers.rs`. -/
def readMethod (fuel : Nat) (cp : ConstantPool) : DecodeM Method := do
  let accessFlags ← takeU16
  match accessFlagsFromBits methodAccessFlagsMask accessFlags with
  | none => throwD .invalidClassFile
  | some flags => do
    let nameIndex ← takeU16
    let name ← textOfD .invalidClassFile fuel cp nameIndex
    let descriptorIndex ← takeU16
    let descriptorText ← textOfD .invalidClassFile fuel cp descriptorIndex
    let descriptor := Descriptor.parseFromMethod descriptorText
    let attributesCount ← takeU16
    let attributes ← repeatM attributesCount (readAttribute fuel cp)
    pure ⟨flags, name, descriptor, attributes⟩

/-- The constant-pool loop of `read_classfile` (`for idx in
1..=constant_pool_count - 1`): decode an entry and insert it at the next
consecutive index, `count - 1` times starting from index 1, propagating
insertion errors with `?`. The source performs no skip after a `Long` or
`Double` entry. (For `constant_pool_count = 0` the Rust `u16` subtraction
underflows — a debug-build panic; every claim's input has a positive count.) -/
def readConstantPoolItems : Nat → Nat → ConstantPool → DecodeM ConstantPool
  | 0, _, cp => pure cp
  | Nat.succ n, idx, cp => do
    let entry ← readConstantPoolEntry
    match ConstantPool.insert cp idx entry with
    | (.ok _, cp2) => readConstantPoolItems n (idx + 1) cp2
    | (.error e, _) => throwD e

/-- `read_classfile` of `src/bytecode/reader/containers.rs`: magic, version,
constant pool, flags, class indices, interfaces, fields, methods, class
attributes — and then `Ok` immediately, with no check that the reader has
been exhausted. -/
def readClassfile (fuel : Nat) (cp : ConstantPool) : DecodeM ClassFile := do
  let magicNumber ← takeU32
  if magicNumber ≠ 0xCAFEBABE then throwD .invalidClassFile
  else do
    let minorVersion ← takeU16
    let majorVersion ← takeU16
    let constantPoolCount ← takeU16
    let cp2 ← readConstantPoolItems (constantPoolCount - 1) 1 cp
    let accessFlags ← takeU16
    match accessFlagsFromBits classAccessFlagsMask accessFlags with
    | none => throwD .invalidClassFile
    | some flags => do
      let thisClass ← takeU16
      let superClass ← takeU16
      let interfacesCount ← takeU16
      let interfaces ← repeatM interfacesCount readInterface
      let fieldsCount ← takeU16
      let fields ← repeatM fieldsCount (readField fuel cp2)
      let methodsCount ← takeU16
      let methods ← repeatM methodsCount (readMethod fuel cp2)
      let attributesCount ← takeU16
      let attributes ← repeatM attributesCount (readAttribute fuel cp2)
      pure
        { magicNumber := magicNumber
          version := ⟨minorVersion, majorVersion⟩
          constantPoolCount := constantPoolCount
          constantPool := cp2
          accessFlags := flags
          thisClass := thisClass
          superClass := superClass
          interfacesCount := interfacesCount
          interfaces := interfaces
          fieldsCount := fieldsCount
          fields := fields
          methodsCount := methodsCount
          methods := methods
          attributesCount := attributesCount
          attributes := attributes }

/-- The `invokedynamic` opcode constant (`src/types/instructions.rs`,
`Invokedynamic::OPCODE`). -/
def invokedynamicOpcode : Nat := 0xBA

/-- The decoded `invokedynamic` instruction (`src/types/instructions.rs`,
`pub struct Invokedynamic;`): a unit struct carrying no operand. -/
inductive InvokedynamicInstr where
  | mk
  deriving DecidableEq, Repr

/-- `Invokedynamic::create_instruction` of `src/decoder/instructions.rs`:
the factory ignores its buffer entirely — it reads no operand bytes and
returns the unit instruction. -/
def invokedynamicCreateInstruction (buffer : BufferedReader) :
    Except BytecodeError InvokedynamicInstr × BufferedReader :=
  (.ok .mk, buffer)

/-- The malformed two-entry cyclic pool of the specification's scenario E:
entry 1 is `Class` with name index 2, entry 2 is `Class` with name index 1. -/
def cyclePool : ConstantPool :=
  ⟨fun j => if j = 1 then some (.Class 2) else if j = 2 then some (.Class 1) else none⟩

/-- A complete class file whose pool holds a `Long` followed by an
`Integer`: magic, version 0.52, `constant_pool_count = 3`, a `Long` entry
(tag 5, value 1) and an `Integer` entry (tag 3, value 7), then zero flags,
class indices 0, and empty interface/field/method/attribute lists. Under the
wire format the `Integer` occupies index 3 (the `Long` covering 1 and 2). -/
def longIntegerClassfileBytes : List Nat :=
  [0xCA, 0xFE, 0xBA, 0xBE,
   0x00, 0x00, 0x00, 0x34,
   0x00, 0x03,
   5, 0x00, 0x00, 0x00, 0x00, 0x00, 0x00, 0x00, 0x01,
   3, 0x00, 0x00, 0x00, 0x07,
   0x00, 0x00,
   0x00, 0x00,
   0x00, 0x00,
   0x00, 0x00,
   0x00, 0x00,
   0x00, 0x00,
   0x00, 0x00]

/-- `read_classfile` run over `longIntegerClassfileBytes` (the textual
projection is never consulted on this input, so any fuel gives the same
run; 0 is used). -/
def longIntegerRun : DecodeOutcome ClassFile × BufferedReader :=
  readClassfile 0 ConstantPool.new (BufferedReader.new longIntegerClassfileBytes)

/-- The pool entries at indices 1, 2 and 3 after the `Long`+`Integer` walk
(`none` if the walk did not succeed). -/
def longIntegerPoolSlots :
    Option (Option ConstantPoolEntry × Option ConstantPoolEntry × Option ConstantPoolEntry) :=
  match longIntegerRun with
  | (.ok cf, _) => some (cf.constantPool.get 1, cf.constantPool.get 2, cf.constantPool.get 3)
  | _ => none

/-- A minimal well-formed class file — empty pool (`constant_pool_count =
1`), zero flags and counts — followed by one trailing byte `0xFF` that no
walker step consumes. -/
def trailingByteClassfileBytes : List Nat :=
  [0xCA, 0xFE, 0xBA, 0xBE,
   0x00, 0x00, 0x00, 0x34,
   0x00, 0x01,
   0x00, 0x00,
   0x00, 0x00,
   0x00, 0x00,
   0x00, 0x00,
   0x00, 0x00,
   0x00, 0x00,
   0x00, 0x00,
   0xFF]

/-- `read_classfile` run over `trailingByteClassfileBytes`. -/
def trailingByteRun : DecodeOutcome ClassFile × BufferedReader :=
  readClassfile 0 ConstantPool.new (BufferedReader.new trailingByteClassfileBytes)

/-- Final cursor and size of the `trailingByteRun` reader when the walk
succeeds (`none` if it did not). -/
def trailingByteResult : Option (Nat × Nat) :=
  match trailingByteRun with
  | (.ok _, r) => some (r.position, r.size)
  | _ => none

theorem textOf_cycle_pair (fuel : Nat) :
    textOfFuel fuel cyclePool 1 = .diverged ∧ textOfFuel fuel cyclePool 2 = .diverged := by
  induction fuel with
  | zero => exact ⟨rfl, rfl⟩
  | succ n ih => exact ⟨ih.2, ih.1⟩

theorem fromBytes_ne_error (t : PrimTy) (bytes : List Nat)
    (hlen : bytes.length = t.width) (e : BytecodeError) :
    fromBytes t bytes ≠ .error e := by
  unfold fromBytes
  simp only [hlen, ne_eq, not_true_eq_false, if_false]
  cases t <;> simp

theorem classNameChars_append (n rest : List Char) (h : ∀ c ∈ n, c ≠ ';') :
    classNameChars (n ++ ';' :: rest) = (n, rest) := by
  induction n with
  | nil => simp [classNameChars]
  | cons c cs ih =>
    have hc : c ≠ ';' := h c (List.mem_cons_self c cs)
    have ih2 := ih (fun x hx => h x (List.mem_cons_of_mem c hx))
    simp [classNameChars, hc, ih2]

theorem parseFieldType_canonical (t : FieldType) (h : semicolonFree t = true) :
    ∀ rest, parseFieldType (canonicalFieldTypeChars t ++ rest) = (some t, rest) := by
  induction t with
  | Base b => intro rest; cases b <;> rfl
  | Object n =>
    intro rest
    have hfree : ∀ c ∈ n.toList, c ≠ ';' := by
      simpa [semicolonFree, List.all_eq_true] using h
    show parseFieldType ('L' :: (n.toList ++ [';']) ++ rest) = _
    rw [List.cons_append, List.append_assoc]
    simp only [List.singleton_append, parseFieldType]
    rw [classNameChars_append n.toList rest hfree]
    have hn : String.mk n.toList = n := by cases n; rfl
    simp [hn]
  | Array t iht =>
    intro rest
    have h2 : semicolonFree t = true := by simpa [semicolonFree] using h
    show parseFieldType ('[' :: (canonicalFieldTypeChars t ++ rest)) = _
    simp only [parseFieldType]
    rw [iht h2 rest]
    rfl

theorem DecodeM.bind_apply {α β : Type} (m : DecodeM α) (f : α → DecodeM β)
    (r : BufferedReader) :
    Bind.bind m f r =
      match m r with
      | (.ok a, r2) => f a r2
      | (.err e, r2) => (.err e, r2)
      | (.panicked, r2) => (.panicked, r2)
      | (.diverged, r2) => (.diverged, r2) := rfl

theorem DecodeM.pure_apply {α : Type} (a : α) (r : BufferedReader) :
    Pure.pure (f := DecodeM) a r = (.ok a, r) := rfl

theorem parseFieldType_fst_isSome (l : List Char) :
    ((parseFieldType l).1).isSome = true := by
  induction l with
  | nil => rfl
  | cons c cs ih =>
    unfold parseFieldType
    split <;> simp_all

set_option maxHeartbeats 2000000 in
/-- C1: the claim says the class-file walk skips the index after a `Long` or
`Double` pool entry (nothing inserted at `i+1`, the next wire entry landing
at `i+2`). The walk over `longIntegerClassfileBytes` — a `Long` at index 1
followed by an `Integer` on the wire — inserts the `Integer` at index 2, the
very slot the claim requires the walker to skip, and leaves index 3 empty. -/
theorem c1_long_slot_not_skipped :
    longIntegerPoolSlots =
      some (some (.Long 0 1), some (.Integer 7), none) := by
  simp [longIntegerPoolSlots, longIntegerRun, readClassfile, longIntegerClassfileBytes,
    BufferedReader.new, DecodeM.bind_apply, DecodeM.pure_apply, takeU8, takeU16, takeU32,
    takeI32, takeF32orPanic, takeBytesM, take, takeBytes, BufferedReader.advance, fromBytes,
    PrimTy.width, decodeBE, toSigned, readConstantPoolItems, readConstantPoolEntry,
    ConstantTag.fromTag, ConstantPool.insert, ConstantPool.new, ConstantPool.get,
    accessFlagsFromBits, classAccessFlagsMask, repeatM, throwD,
    List.foldl, List.drop, List.take]

/-- C2: the claim says `text_of` terminates on every pool, including cyclic
ones. On the two-entry cyclic pool `1:Class(2), 2:Class(1)`, `text_of(1)`
exhausts every recursion depth — no finite depth completes the call, i.e.
the source recursion (which has no cycle detection and no depth bound) never
terminates. -/
theorem c2_text_of_cycle_diverges (fuel : Nat) :
    textOfFuel fuel cyclePool 1 = .diverged :=
  (textOf_cycle_pair fuel).1

/-- C3: the claim says no decode operation panics. `peek_bytes::<u16>()` on
a reader over the empty byte slice indexes `data[0..2]` with no bounds
guard, which is a Rust panic, modelled as the `panicked` outcome. -/
theorem c3_peek_bytes_panics :
    peekBytes .u16 (BufferedReader.new []) = .panicked := by
  rfl

/-- C4: a successful `take::<T>()` (or `take_bytes(n)`) advances the cursor
by exactly `size_of::<T>()` (respectively `n`) while leaving the data and
size unchanged, and a failed one leaves the whole reader unchanged. The
hypothesis is the reader invariant `size = data.len()` that
`BufferedReader::new` establishes and nothing ever breaks. -/
theorem c4_take_frame_effect (t : PrimTy) (n : Nat) (r : BufferedReader)
    (h : r.size = r.data.length) :
    (∀ v r2, take t r = (.ok v, r2) →
      r2.data = r.data ∧ r2.size = r.size ∧ r2.position = r.position + t.width) ∧
    (∀ e r2, take t r = (.error e, r2) → r2 = r) ∧
    (∀ bs r2, takeBytes r n = (.ok bs, r2) →
      r2.data = r.data ∧ r2.size = r.size ∧ r2.position = r.position + n) ∧
    (∀ e r2, takeBytes r n = (.error e, r2) → r2 = r) := by
  have hslice : ∀ m : Nat, r.position + m ≤ r.size →
      ((r.data.drop r.position).take m).length = m := by
    intro m hm
    rw [List.length_take, List.length_drop]
    exact Nat.min_eq_left (by omega)
  refine ⟨?_, ?_, ?_, ?_⟩
  · intro v r2 heq
    by_cases hgt : r.position + t.width > r.size
    · simp [take, BufferedReader.advance, hgt] at heq
    · simp [take, BufferedReader.advance, hgt] at heq
      obtain ⟨h1, h2⟩ := heq
      subst h2
      exact ⟨rfl, rfl, rfl⟩
  · intro e r2 heq
    by_cases hgt : r.position + t.width > r.size
    · simp [take, BufferedReader.advance, hgt] at heq
      exact heq.2.symm
    · simp [take, BufferedReader.advance, hgt] at heq
      exact absurd heq.1 (fromBytes_ne_error t _ (hslice t.width (by omega)) e)
  · intro bs r2 heq
    by_cases hgt : r.position + n > r.size
    · simp [takeBytes, BufferedReader.advance, hgt] at heq
    · simp [takeBytes, BufferedReader.advance, hgt] at heq
      obtain ⟨h1, h2⟩ := heq
      subst h2
      exact ⟨rfl, rfl, rfl⟩
  · intro e r2 heq
    by_cases hgt : r.position + n > r.size
    · simp [takeBytes, BufferedReader.advance, hgt] at heq
      exact heq.2.symm
    · simp [takeBytes, BufferedReader.advance, hgt] at heq

/-- Witness for C4 at a concrete reader: the invariant holds for
`BufferedReader::new [5, 6, 7]` and the frame property follows for
`take::<u16>` and `take_bytes(2)` there. -/
theorem c4_take_frame_effect_witness :
    ((BufferedReader.new [5, 6, 7]).size = (BufferedReader.new [5, 6, 7]).data.length) ∧
    ((∀ v r2, take .u16 (BufferedReader.new [5, 6, 7]) = (.ok v, r2) →
        r2.data = (BufferedReader.new [5, 6, 7]).data ∧
        r2.size = (BufferedReader.new [5, 6, 7]).size ∧
        r2.position = (BufferedReader.new [5, 6, 7]).position + PrimTy.width .u16) ∧
     (∀ e r2, take .u16 (BufferedReader.new [5, 6, 7]) = (.error e, r2) →
        r2 = BufferedReader.new [5, 6, 7]) ∧
     (∀ bs r2, takeBytes (BufferedReader.new [5, 6, 7]) 2 = (.ok bs, r2) →
        r2.data = (BufferedReader.new [5, 6, 7]).data ∧
        r2.size = (BufferedReader.new [5, 6, 7]).size ∧
        r2.position = (BufferedReader.new [5, 6, 7]).position + 2) ∧
     (∀ e r2, takeBytes (BufferedReader.new [5, 6, 7]) 2 = (.error e, r2) →
        r2 = BufferedReader.new [5, 6, 7])) :=
  ⟨rfl, c4_take_frame_effect .u16 2 (BufferedReader.new [5, 6, 7]) rfl⟩

set_option maxHeartbeats 2000000 in
/-- C5: the claim says a successful walk exhausts the reader and trailing
bytes force `InvalidData`. The walk over `trailingByteClassfileBytes` — a
well-formed minimal class file followed by one extra byte — succeeds and
leaves the cursor at 24 of 25: the source returns `Ok` with no exhaustion
check. -/
theorem c5_trailing_bytes_accepted :
    trailingByteResult = some (24, 25) ∧ (24 : Nat) < 25 := by
  refine ⟨?_, by norm_num⟩
  simp [trailingByteResult, trailingByteRun, readClassfile, trailingByteClassfileBytes,
    BufferedReader.new, DecodeM.bind_apply, DecodeM.pure_apply, takeU8, takeU16, takeU32,
    takeI32, takeF32orPanic, takeBytesM, take, takeBytes, BufferedReader.advance, fromBytes,
    PrimTy.width, decodeBE, toSigned, readConstantPoolItems, readConstantPoolEntry,
    ConstantTag.fromTag, ConstantPool.insert, ConstantPool.new, ConstantPool.get,
    accessFlagsFromBits, classAccessFlagsMask, repeatM, throwD,
    List.foldl, List.drop, List.take]

/-- C6 counterexample: the claim says `parse_from_field` rejects the void
pseudo-type with `InvalidDescriptor`; on input `"V"` it instead succeeds,
producing the `Void` base type (exactly what the source's own unit test
`test_parse_field_descriptor` expects). -/
theorem c6_void_accepted_counterexample :
    Descriptor.parseFromField "V" = .ok ⟨.TypeKind, .Base .Void⟩ ∧
    Descriptor.parseFromField "V" ≠ .error .invalidDescriptor := by
  exact ⟨rfl, fun hcon => Except.noConfusion hcon⟩

/-- C6 amended: `parse_from_field` accepts `'V'`, mapping it (like any
character outside the recognised set, via the parser's wildcard arm) to the
`Void` base type; in fact `parse_field_type` never returns `None`, so
`parse_from_field` never fails with `InvalidDescriptor` at all. -/
theorem c6_void_parses_to_void :
    Descriptor.parseFromField "V" = .ok ⟨.TypeKind, .Base .Void⟩ ∧
    ∀ s : String, ∃ d, Descriptor.parseFromField s = .ok d := by
  refine ⟨rfl, fun s => ?_⟩
  unfold Descriptor.parseFromField
  cases hx : (parseFieldType s.toList).1 with
  | none =>
    have := parseFieldType_fst_isSome s.toList
    rw [hx] at this
    simp at this
  | some ty => exact ⟨⟨.TypeKind, ty⟩, rfl⟩

/-- C7: the claim says decoding `invokedynamic` consumes four operand bytes
and carries the `u16` index. The factory `Invokedynamic::create_instruction`
returns the unit instruction without touching the buffer: on a reader
holding the four operand bytes it consumes nothing (the cursor stays at 0)
and the result carries no operand. -/
theorem c7_invokedynamic_reads_nothing :
    invokedynamicCreateInstruction (BufferedReader.new [0x00, 0x01, 0x00, 0x00]) =
      (.ok .mk, BufferedReader.new [0x00, 0x01, 0x00, 0x00]) ∧
    (BufferedReader.new [0x00, 0x01, 0x00, 0x00]).position = 0 ∧
    invokedynamicOpcode = 0xBA := by
  exact ⟨rfl, rfl, rfl⟩

/-- C8: the claim says `has_remaining_data` is true iff `position < size`.
The source computes `position == data.len()`: on a fresh one-byte reader
(where a byte remains) it answers `false`, and on the same reader fully
consumed (position 1 of 1, nothing remaining) it answers `true` — the exact
inversion the specification flags as a source bug. -/
theorem c8_has_remaining_data_inverted :
    hasRemainingData (BufferedReader.new [0]) = false ∧
    (BufferedReader.new [0]).position < (BufferedReader.new [0]).size ∧
    hasRemainingData ⟨[0], 1, 1⟩ = true := by
  exact ⟨rfl, by decide, rfl⟩

/-- C9 counterexample: the claim says stringifying a parsed field descriptor
reproduces the input up to base-type spelling, with the `L...;` wrapper and
array brackets reproduced. Parsing `"Ljava/lang/String;"` yields the object
tree, but the source `Display` prints the bare class name — the wrapper is
dropped, and no base type is involved, so the permitted deviation does not
apply. -/
theorem c9_display_drops_wrapper_counterexample :
    Descriptor.parseFromField "Ljava/lang/String;" =
      .ok ⟨.TypeKind, .Object "java/lang/String"⟩ ∧
    displayFieldType (.Object "java/lang/String") = "java/lang/String" ∧
    displayFieldType (.Object "java/lang/String") ≠ "Ljava/lang/String;" := by
  exact ⟨rfl, rfl, by decide⟩

/-- C9 amended: the code's `Display` does not round-trip (base types spell
out, object types lose the `L...;` wrapper, arrays print as `[component]`
with a closing bracket); what holds is the inverse round-trip through the
canonical grammar: parsing the canonical string of any field-type tree whose
object names contain no `';'` returns exactly that tree. -/
theorem c9_canonical_parse_roundtrip (t : FieldType) (h : semicolonFree t = true) :
    Descriptor.parseFromField (String.mk (canonicalFieldTypeChars t)) =
      .ok ⟨.TypeKind, t⟩ := by
  unfold Descriptor.parseFromField
  have htl : (String.mk (canonicalFieldTypeChars t)).toList = canonicalFieldTypeChars t := rfl
  rw [htl]
  have h2 := parseFieldType_canonical t h []
  rw [List.append_nil] at h2
  rw [h2]

/-- Witness for the amended C9 at the concrete tree `[Ljava/lang/String;`
(an array of objects): its canonical string parses back to it. -/
theorem c9_canonical_parse_roundtrip_witness :
    semicolonFree (.Array (.Object "java/lang/String")) = true ∧
    Descriptor.parseFromField
        (String.mk (canonicalFieldTypeChars (.Array (.Object "java/lang/String")))) =
      .ok ⟨.TypeKind, .Array (.Object "java/lang/String")⟩ :=
  ⟨by decide, c9_canonical_parse_roundtrip (.Array (.Object "java/lang/String")) (by decide)⟩

/-- C10: `ConstantPool::insert` is atomic and consistent with `get`: on an
occupied index it returns the duplicate-entry error and every lookup is as
before; on a free index it succeeds, `get` at the index returns the new
entry, and every other index is untouched. -/
theorem c10_insert_get_consistent (p : ConstantPool) (i : Nat) (e : ConstantPoolEntry) :
    (match ConstantPool.insert p i e with
     | (.error er, p2) =>
       er = .constantPoolEntryAlreadyExists ∧ (p.get i).isSome = true ∧
         ∀ j, p2.get j = p.get j
     | (.ok _, p2) =>
       (p.get i).isSome = false ∧ p2.get i = some e ∧
         ∀ j, p2.get j = if j = i then some e else p.get j) := by
  unfold ConstantPool.insert
  by_cases hs : (p.entries i).isSome = true
  · rw [if_pos hs]
    exact ⟨rfl, hs, fun j => rfl⟩
  · rw [if_neg hs]
    refine ⟨by simpa [ConstantPool.get] using hs, ?_, fun j => rfl⟩
    simp [ConstantPool.get]

end RJVM
